import Mathlib

/-!
Shallow embedding of the query-execution core of the `db` repository
(src/query/src/predicate.rs, src/query/src/select.rs, src/query/src/delete.rs,
src/syntax/src/ast.rs), with theorems settling the frozen claims about its
specification.

Modelling conventions:
* Machine integers `i32` are modelled as `Int`; `f32`/`f64` are modelled as `ℚ`
  (exact arithmetic stands in for IEEE floats; no claim depends on rounding or
  NaN behaviour).
* A row (a `*const u8` slot pointer in the source) is modelled as a pair of
  total functions: the NULL bitmap (`isNull`) and the typed cell content at a
  column's offset (`cell`).  In the source every column has a distinct byte
  offset derived from its index, so the column index is used as the key for
  both the NULL bit and the cell.
* Fallible Rust functions returning `Result` are modelled with `Except`.
-/

/-- Bare column types, from `common::BareTy` as used in src/query/src/predicate.rs. -/
inductive BareTy where
  | int | bool | float | char | varchar | date
  deriving DecidableEq, Repr

/-- Comparison operators, from src/syntax/src/ast.rs (`CmpOp`). -/
inductive CmpOp where
  | lt | le | ge | gt | eq | ne
  deriving DecidableEq, Repr

/-- Aggregation operators (`common::AggOp`), as consumed by src/query/src/select.rs. -/
inductive AggOp where
  | avg | sum | min | max | count | countAll
  deriving DecidableEq, Repr

/-- The type tag of a literal (`Lit::ty()` in the common crate), used in error payloads. -/
inductive LitTy where
  | null | int | bool | float | str
  deriving DecidableEq, Repr

/-- AST literals, from the `common` crate as used by src/syntax/src/ast.rs. -/
inductive Lit where
  | null
  | int (v : Int)
  | bool (v : Bool)
  | float (v : ℚ)
  | str (v : String)
  deriving DecidableEq, Repr

/-- `Lit::ty()`: the type tag of a literal. -/
def Lit.ty : Lit → LitTy
  | .null => .null
  | .int _ => .int
  | .bool _ => .bool
  | .float _ => .float
  | .str _ => .str

/-- A column reference, from src/syntax/src/ast.rs (`ColRef`). -/
structure ColRef where
  table : Option String
  col : String
  deriving DecidableEq, Repr

/-- The right-hand side of a comparison, from src/syntax/src/ast.rs (`Atom`). -/
inductive Atom where
  | colRef (c : ColRef)
  | lit (l : Lit)
  deriving DecidableEq, Repr

/-- WHERE-clause expressions, from src/syntax/src/ast.rs (`Expr`). -/
inductive Expr where
  | cmp (op : CmpOp) (l : ColRef) (r : Atom)
  | null (l : ColRef) (isNull : Bool)
  | like (l : ColRef) (pat : String)
  deriving DecidableEq, Repr

/-- `Expr::lhs_col` from src/syntax/src/ast.rs. -/
def Expr.lhs_col : Expr → ColRef
  | .cmp _ l _ => l
  | .null l _ => l
  | .like l _ => l

/-- One select item, from src/syntax/src/ast.rs (`Agg`): an optional aggregation
operator applied to a column (`op = some .countAll` for `count(*)`). -/
structure Agg where
  col : ColRef
  op : Option AggOp
  deriving DecidableEq, Repr

/-- Errors of the core, from the `common` crate (`Error`); payloads that do not
matter to any claim (e.g. the chrono parse reason) are dropped. -/
inductive Error where
  | noSuchTable (t : String)
  | noSuchCol (c : String)
  | ambiguousCol (c : String)
  | dupTable (t : String)
  | cmpOnNull
  | recordLitTyMismatch (expect : BareTy) (actual : LitTy)
  | recordTyMismatch (expect actual : BareTy)
  | invalidLikeTy (ty : BareTy)
  | invalidLike
  | insertInvalidDate (date : String)
  | invalidAgg (col : BareTy) (op : AggOp)
  | mixedSelect
  | deleteTableWithForeignLink (t : String)
  deriving DecidableEq, Repr

/-- A typed cell value as decoded from a slot at a column's offset. -/
inductive Val where
  | int (v : Int)
  | bool (v : Bool)
  | float (v : ℚ)
  | str (v : String)
  | date (v : Int)
  deriving DecidableEq, Repr

/-- Decode a cell as `i32` (the source reinterprets the bytes at the column
offset; rows are well typed by the §3 invariant, the default is never hit
on such rows). -/
def Val.asInt : Val → Int
  | .int v => v
  | _ => 0

/-- Decode a cell as `bool`. -/
def Val.asBool : Val → Bool
  | .bool v => v
  | _ => false

/-- Decode a cell as `f32` (modelled as `ℚ`). -/
def Val.asQ : Val → ℚ
  | .float v => v
  | _ => 0

/-- Decode a cell as the live string prefix (`str_from_parts` over the
length-prefixed bytes). -/
def Val.asStr : Val → String
  | .str v => v
  | _ => ""

/-- Decode a cell as a `NaiveDate` (modelled as its `y*10000+m*100+d` encoding,
which is order-preserving for valid dates). -/
def Val.asDate : Val → Int
  | .date v => v
  | _ => 0

/-- A row: the NULL bitmap (`is_null(p, idx)`) together with the typed content
stored at each column's offset. -/
structure Row where
  isNull : Nat → Bool
  cell : Nat → Val

/-- A placeholder row, used as the default of list lookups that the source
performs with unchecked indexing. -/
def junkRow : Row := { isNull := fun _ => false, cell := fun _ => Val.int 0 }

/-- Column metadata (`ColInfo`): name, bare type, and whether the column has an
index (`ci.index != !0` in the source). -/
structure ColInfo where
  name : String
  ty : BareTy
  index : Bool
  deriving DecidableEq, Repr

/-- `get_ci`: look a column up by name in a table's column list, returning its
index (derived in the source from the pointer offset into `tp.cols`) and its
metadata; `NoSuchCol` if absent. -/
def get_ci : List ColInfo → String → Except Error (Nat × ColInfo)
  | [], n => .error (.noSuchCol n)
  | ci :: rest, n =>
    if ci.name == n then .ok (0, ci)
    else
      match get_ci rest n with
      | .ok (i, c) => .ok (i + 1, c)
      | .error e => .error e

/-- Modelled from the spec: `NaiveDate::parse_from_str(v, "%Y-%m-%d")` from the
chrono crate (not part of this repository).  Parses `y-m-d` with basic range
checks and encodes the date as `y*10000+m*100+d`, an order-preserving encoding
for the dates involved.  §4.1: "(Date, StrLit s): parse `%Y-%m-%d`; fail with
InvalidDate." -/
def parseDate (s : String) : Option Int :=
  match s.split (· = '-') with
  | [y, m, d] =>
    match y.toNat?, m.toNat?, d.toNat? with
    | some yn, some mn, some dn =>
      if 1 ≤ mn ∧ mn ≤ 12 ∧ 1 ≤ dn ∧ dn ≤ 31 then
        some ((yn : Int) * 10000 + (mn : Int) * 100 + (dn : Int))
      else none
    | _, _, _ => none
  | _ => none

/-- The NULL result chosen by `handle_op!` (src/query/src/predicate.rs lines
8-15): `false` for every operator except `Ne`, which gets `true`. -/
def hoNullable : CmpOp → Bool
  | .ne => true
  | _ => false

/-- The closure built by the `cmp!` macro in the literal arm of `one_predicate`
(src/query/src/predicate.rs lines 25-32): check the operand's NULL bit, then
apply the type specialization.  `handle_op!` (lines 8-15) expands every one of
the six operators to the `<` specialization, so `ltf` below is always the `<`
comparison of the operand type — the operator only selects the NULL result. -/
def compileLit (op : CmpOp) (lIdx : Nat) (ltf : Row → Bool) : Row → Bool :=
  fun r => if r.isNull lIdx then hoNullable op else ltf r

/-- The closure built by the `cmp!` macro in the column arm of `one_predicate`
(src/query/src/predicate.rs lines 54-61): both NULL bits checked, then the `<`
specialization. -/
def compileCol (op : CmpOp) (lIdx rIdx : Nat) (ltf : Row → Bool) : Row → Bool :=
  fun r =>
    if r.isNull lIdx then hoNullable op
    else if r.isNull rIdx then hoNullable op
    else ltf r

/-- One token of the regex produced from a LIKE pattern: after
`regex::escape` every original character is a literal, and the two replaces
turn `%` into `.*` and `_` into `.` (src/query/src/predicate.rs line 79). -/
inductive LikeTok where
  | lit (c : Char)
  | any
  | anyStar
  deriving DecidableEq, Repr

/-- The LIKE-to-regex translation of src/query/src/predicate.rs line 79:
`regex::escape(pat).replace('%', ".*").replace('_', ".")`.  Escaping makes
every pattern character a literal regex atom (escape sequences never contain
`%` or `_`), after which `%` becomes `.*` and `_` becomes `.`. -/
def likeToRegex (pat : List Char) : List LikeTok :=
  pat.map fun c => if c = '%' then .anyStar else if c = '_' then .any else .lit c

/-- Does the token list match some prefix of the string?  (`anyStar` consumes
any number of characters.) -/
def prefixMatch : List LikeTok → List Char → Bool
  | [], _ => true
  | .lit _ :: _, [] => false
  | .lit c :: ts, d :: s => c == d && prefixMatch ts s
  | .any :: _, [] => false
  | .any :: ts, _ :: s => prefixMatch ts s
  | .anyStar :: ts, s => (List.range (s.length + 1)).any fun k => prefixMatch ts (s.drop k)

/-- The behaviour of `regex::Regex::is_match` on the translated pattern: an
unanchored search, true iff a match starts at some position of the string. -/
def regexSearch (ts : List LikeTok) (s : List Char) : Bool :=
  (List.range (s.length + 1)).any fun i => prefixMatch ts (s.drop i)

/-- Anchored full-match semantics of the translated pattern: the tokens must
consume the entire string.  This is the semantics the spec prescribes for LIKE
("Anchor is full-match"); it is the claim-side definition compared against the
source's `regexSearch`. -/
def fullMatch : List LikeTok → List Char → Bool
  | [], s => s.isEmpty
  | .lit _ :: _, [] => false
  | .lit c :: ts, d :: s => c == d && fullMatch ts s
  | .any :: _, [] => false
  | .any :: ts, _ :: s => fullMatch ts s
  | .anyStar :: ts, s => (List.range (s.length + 1)).any fun k => fullMatch ts (s.drop k)

/-- The closure built by the `Expr::Like` arm of `one_predicate`
(src/query/src/predicate.rs lines 81-84): NULL never matches, otherwise the
compiled regex is searched in the live string (`re.is_match`, an unanchored
search). -/
def likePred (lIdx : Nat) (ts : List LikeTok) : Row → Bool :=
  fun r => !r.isNull lIdx && regexSearch ts (r.cell lIdx).asStr.data

/-- `one_predicate` from src/query/src/predicate.rs (lines 18-89): compile one
WHERE expression over a single table into a row predicate.  Every comparison
arm goes through `handle_op!`, which maps all six operators to the `<`
specialization of the operand type (only the NULL result differs, via
`hoNullable`).  Regex compilation of a translated LIKE pattern cannot fail
(the token list is always a valid regex), so the `InvalidLike` error path is
not reachable in this model. -/
def one_predicate (e : Expr) (cols : List ColInfo) : Except Error (Row → Bool) :=
  match get_ci cols e.lhs_col.col with
  | .error er => .error er
  | .ok (lIdx, l) =>
    match e with
    | .cmp op _ r =>
      match r with
      | .lit rl =>
        match l.ty, rl with
        | _, .null => .error .cmpOnNull
        | .int, .int v =>
          .ok (compileLit op lIdx fun row => decide ((row.cell lIdx).asInt < v))
        | .bool, .bool v =>
          .ok (compileLit op lIdx fun row => !(row.cell lIdx).asBool && v)
        | .float, .float v =>
          .ok (compileLit op lIdx fun row => decide ((row.cell lIdx).asQ < v))
        | .char, .str v =>
          .ok (compileLit op lIdx fun row => decide ((row.cell lIdx).asStr < v))
        | .varchar, .str v =>
          .ok (compileLit op lIdx fun row => decide ((row.cell lIdx).asStr < v))
        | .date, .str v =>
          match parseDate v with
          | some dt => .ok (compileLit op lIdx fun row => decide ((row.cell lIdx).asDate < dt))
          | none => .error (.insertInvalidDate v)
        | expect, rr => .error (.recordLitTyMismatch expect rr.ty)
      | .colRef rc =>
        match get_ci cols rc.col with
        | .error er => .error er
        | .ok (rIdx, rci) =>
          match l.ty, rci.ty with
          | .int, .int =>
            .ok (compileCol op lIdx rIdx fun row => decide ((row.cell lIdx).asInt < (row.cell rIdx).asInt))
          | .bool, .bool =>
            .ok (compileCol op lIdx rIdx fun row => !(row.cell lIdx).asBool && (row.cell rIdx).asBool)
          | .float, .float =>
            .ok (compileCol op lIdx rIdx fun row => decide ((row.cell lIdx).asQ < (row.cell rIdx).asQ))
          | .char, .char =>
            .ok (compileCol op lIdx rIdx fun row => decide ((row.cell lIdx).asStr < (row.cell rIdx).asStr))
          | .char, .varchar =>
            .ok (compileCol op lIdx rIdx fun row => decide ((row.cell lIdx).asStr < (row.cell rIdx).asStr))
          | .varchar, .char =>
            .ok (compileCol op lIdx rIdx fun row => decide ((row.cell lIdx).asStr < (row.cell rIdx).asStr))
          | .varchar, .varchar =>
            .ok (compileCol op lIdx rIdx fun row => decide ((row.cell lIdx).asStr < (row.cell rIdx).asStr))
          | .date, .date =>
            .ok (compileCol op lIdx rIdx fun row => decide ((row.cell lIdx).asDate < (row.cell rIdx).asDate))
          | expect, actual => .error (.recordTyMismatch expect actual)
    | .null _ b =>
      .ok (if b then fun r => r.isNull lIdx else fun r => !r.isNull lIdx)
    | .like _ pat =>
      match l.ty with
      | .char => .ok (likePred lIdx (likeToRegex pat.data))
      | .varchar => .ok (likePred lIdx (likeToRegex pat.data))
      | ty => .error (.invalidLikeTy ty)

/-- The closure built by the `cmp!` macro in `cross_predicate`
(src/query/src/predicate.rs lines 98-106): NULL bits of both rows checked, then
the `<` specialization of the common type. -/
def compileCross (op : CmpOp) (lIdx rIdx : Nat) (ltf : Row × Row → Bool) : Row × Row → Bool :=
  fun p =>
    if p.1.isNull lIdx then hoNullable op
    else if p.2.isNull rIdx then hoNullable op
    else ltf p

/-- `cross_predicate` from src/query/src/predicate.rs (lines 91-117): compile a
comparison between one column of each of two tables into a pair predicate.
As in `one_predicate`, `handle_op!` maps every operator to `<`. -/
def cross_predicate (op : CmpOp) (colL colR : String) (colsL colsR : List ColInfo) :
    Except Error (Row × Row → Bool) :=
  match get_ci colsL colL with
  | .error er => .error er
  | .ok (lIdx, l) =>
    match get_ci colsR colR with
    | .error er => .error er
    | .ok (rIdx, r) =>
      match l.ty, r.ty with
      | .int, .int =>
        .ok (compileCross op lIdx rIdx fun p => decide ((p.1.cell lIdx).asInt < (p.2.cell rIdx).asInt))
      | .bool, .bool =>
        .ok (compileCross op lIdx rIdx fun p => !(p.1.cell lIdx).asBool && (p.2.cell rIdx).asBool)
      | .float, .float =>
        .ok (compileCross op lIdx rIdx fun p => decide ((p.1.cell lIdx).asQ < (p.2.cell rIdx).asQ))
      | .char, .char =>
        .ok (compileCross op lIdx rIdx fun p => decide ((p.1.cell lIdx).asStr < (p.2.cell rIdx).asStr))
      | .char, .varchar =>
        .ok (compileCross op lIdx rIdx fun p => decide ((p.1.cell lIdx).asStr < (p.2.cell rIdx).asStr))
      | .varchar, .char =>
        .ok (compileCross op lIdx rIdx fun p => decide ((p.1.cell lIdx).asStr < (p.2.cell rIdx).asStr))
      | .varchar, .varchar =>
        .ok (compileCross op lIdx rIdx fun p => decide ((p.1.cell lIdx).asStr < (p.2.cell rIdx).asStr))
      | .date, .date =>
        .ok (compileCross op lIdx rIdx fun p => decide ((p.1.cell lIdx).asDate < (p.2.cell rIdx).asDate))
      | expect, actual => .error (.recordTyMismatch expect actual)

/-- `and` from src/query/src/predicate.rs (lines 119-122): conjoin a list of
predicates by short-circuit AND. -/
def andPreds {α : Type} (ps : List (α → Bool)) : α → Bool :=
  fun t => ps.all fun p => p t

/-- Run a compiled single-row predicate on a row (evaluation helper for
concrete inputs). -/
def runPred (e : Expr) (cols : List ColInfo) (row : Row) : Except Error Bool :=
  (one_predicate e cols).map fun p => p row

/-- A table schema as seen by `select` (name plus ordered column list). -/
structure TableSchema where
  name : String
  cols : List ColInfo
  deriving DecidableEq, Repr

/-- Lookup of a table by name in the query's `IndexMap` of tables
(`ctx.tbls.get_full(t)` in src/query/src/select.rs), returning its insertion
index (= textual table order, duplicates being rejected beforehand). -/
def findTable : List TableSchema → String → Option (Nat × TableSchema)
  | [], _ => none
  | t :: rest, n =>
    if t.name == n then some (0, t)
    else (findTable rest n).map fun p => (p.1 + 1, p.2)

/-- All columns of one table matching a name, with their indices. -/
def colMatchesIn : List ColInfo → String → List (Nat × ColInfo)
  | [], _ => []
  | c :: rest, n =>
    (if c.name == n then [(0, c)] else []) ++
      (colMatchesIn rest n).map fun p => (p.1 + 1, p.2)

/-- All (table index, column index, column) triples matching an unqualified
column name.  The `ctx.cols` HashMap of src/query/src/select.rs keeps a unique
entry per name and overwrites to `None` on a second occurrence, which is
equivalent to: exactly one match resolves, several are ambiguous. -/
def colMatches : List TableSchema → String → List (Nat × Nat × ColInfo)
  | [], _ => []
  | t :: rest, n =>
    ((colMatchesIn t.cols n).map fun p => (0, p.1, p.2)) ++
      (colMatches rest n).map fun p => (p.1 + 1, p.2.1, p.2.2)

/-- Column resolution (`one_where` in src/query/src/select.rs lines 147-159):
a qualified `t.c` requires `t` to be a bound table and `c` a column of it; an
unqualified `c` resolves through the query-wide column map — unique match, or
`AmbiguousCol` / `NoSuchCol`.  Returns (table index, column index, column). -/
def resolveCol (tbls : List TableSchema) (cr : ColRef) : Except Error (Nat × Nat × ColInfo) :=
  match cr.table with
  | some tn =>
    match findTable tbls tn with
    | some (ti, tb) =>
      match get_ci tb.cols cr.col with
      | .ok (ci, c) => .ok (ti, ci, c)
      | .error e => .error e
    | none => .error (.noSuchTable tn)
  | none =>
    match colMatches tbls cr.col with
    | [m] => .ok m
    | [] => .error (.noSuchCol cr.col)
    | _ => .error (.ambiguousCol cr.col)

/-- One output column descriptor, from src/query/src/select.rs (`Col`): the
optional aggregation op, the column index (`idx`, used for the NULL bit; a
meaningless value for `count(*)`, where the source stores `!0`), and the
column metadata (`ci`, `none` exactly for `count(*)`). -/
structure Col where
  op : Option AggOp
  idx : Nat
  ci : Option ColInfo
  deriving DecidableEq, Repr

/-- The loop body of `mk_tbls` (src/query/src/select.rs lines 168-185): walk
the select list in order, pushing each item's `Col` onto the bucket of the
table it resolves to — `count(*)` always onto bucket 0 — and checking the
`InvalidAgg` type restriction for `avg`/`sum`. -/
def mk_tbls_go (tbls : List TableSchema) : List Agg → List (List Col) → Except Error (List (List Col))
  | [], ret => .ok ret
  | a :: rest, ret =>
    if a.op == some .countAll then
      mk_tbls_go tbls rest (ret.set 0 (ret.getD 0 [] ++ [⟨a.op, 0, none⟩]))
    else
      match resolveCol tbls a.col with
      | .error e => .error e
      | .ok (ti, ciIdx, ci) =>
        match a.op with
        | some op =>
          if (op == .avg || op == .sum) && ci.ty != .int && ci.ty != .float && ci.ty != .bool then
            .error (.invalidAgg ci.ty op)
          else
            mk_tbls_go tbls rest (ret.set ti (ret.getD ti [] ++ [⟨a.op, ciIdx, some ci⟩]))
        | none =>
          mk_tbls_go tbls rest (ret.set ti (ret.getD ti [] ++ [⟨a.op, ciIdx, some ci⟩]))

/-- `mk_tbls` from src/query/src/select.rs (lines 162-192): build the per-table
buckets of output columns.  An explicit select list is checked for
`MixedSelect` and distributed over the buckets by `mk_tbls_go`; `select *`
expands to every table's columns in declaration order. -/
def mk_tbls (ops : Option (List Agg)) (tbls : List TableSchema) : Except Error (List (List Col)) :=
  match ops with
  | some ops =>
    if (ops.any fun a => a.op.isSome) != (ops.all fun a => a.op.isSome) then
      .error .mixedSelect
    else
      mk_tbls_go tbls ops (List.replicate tbls.length [])
  | none =>
    .ok (tbls.map fun t => t.cols.enum.map fun p => ⟨none, p.1, some p.2⟩)

/-- Data cells of the materialized result (`LitExt` in the common crate: `Lit`
extended with dates and the 64-bit float aggregation results). -/
inductive LitExt where
  | null
  | int (v : Int)
  | bool (v : Bool)
  | float (v : ℚ)
  | str (v : String)
  | date (v : Int)
  | f64 (v : ℚ)
  deriving DecidableEq, Repr

/-- `ptr2lit` from src/query/src/select.rs (lines 29-40): decode one output
cell — `NULL` if the NULL bit is set, otherwise the value read at the column's
offset with the column's declared type. -/
def ptr2lit (r : Row) (col : Col) : LitExt :=
  if r.isNull col.idx then .null
  else
    match col.ci with
    | none => .null
    | some ci =>
      match ci.ty with
      | .int => .int (r.cell col.idx).asInt
      | .bool => .bool (r.cell col.idx).asBool
      | .float => .float (r.cell col.idx).asQ
      | .char => .str (r.cell col.idx).asStr
      | .varchar => .str (r.cell col.idx).asStr
      | .date => .date (r.cell col.idx).asDate

/-- The value a row contributes to an `avg`/`sum` accumulator
(src/query/src/select.rs lines 66-71): `i32` and `bool` (as 0/1) and `f32`
widened to the 64-bit accumulator (modelled as exact `ℚ`); other types are
unreachable after the `InvalidAgg` check. -/
def cellAsF64 (r : Row) (col : Col) : ℚ :=
  match col.ci with
  | none => 0
  | some ci =>
    match ci.ty with
    | .int => ((r.cell col.idx).asInt : ℚ)
    | .bool => if (r.cell col.idx).asBool then 1 else 0
    | .float => (r.cell col.idx).asQ
    | _ => 0

/-- The `avg`/`sum` accumulation loop of src/query/src/select.rs (lines 59-74):
fold over the joined rows of the column's table, accumulating the sum and the
count of non-NULL rows. -/
def sumLoop (k n : Nat) (data : List Row) (tblIdx : Nat) (col : Col) : ℚ × Nat :=
  (List.range n).foldl
    (fun acc i =>
      let r := data.getD (i * k + tblIdx) junkRow
      if !r.isNull col.idx then (acc.1 + cellAsF64 r col, acc.2 + 1) else acc)
    (0, 0)

/-- Modelled from the spec: the derived total order on result cells used by
`min`/`max` (the `common` crate's `LitExt` ordering is not among the provided
files).  §4.5: "Ordering follows the column type (numeric, lexicographic
string, Date)"; cells of distinct constructors (never compared on well-typed
data) are ranked by constructor. -/
def LitExt.rank : LitExt → Nat
  | .null => 0
  | .int _ => 1
  | .bool _ => 2
  | .float _ => 3
  | .str _ => 4
  | .date _ => 5
  | .f64 _ => 6

/-- Strict order on result cells (see `LitExt.rank`). -/
def litLt : LitExt → LitExt → Bool
  | .int a, .int b => decide (a < b)
  | .bool a, .bool b => !a && b
  | .float a, .float b => decide (a < b)
  | .str a, .str b => decide (a < b)
  | .date a, .date b => decide (a < b)
  | .f64 a, .f64 b => decide (a < b)
  | a, b => decide (a.rank < b.rank)

/-- Non-strict order on result cells (see `LitExt.rank`). -/
def litLe (a b : LitExt) : Bool := !litLt b a

/-- `Iterator::max` over result cells: the last maximal element, `none` when
empty. -/
def maxLit (l : List LitExt) : Option LitExt :=
  l.foldl (fun acc x => match acc with
    | none => some x
    | some a => if litLe a x then some x else some a) none

/-- `Iterator::min` over result cells: the first minimal element, `none` when
empty. -/
def minLit (l : List LitExt) : Option LitExt :=
  l.foldl (fun acc x => match acc with
    | none => some x
    | some a => if litLt x a then some x else some a) none

/-- One aggregated output cell (the closure body of src/query/src/select.rs
lines 52-89): `avg`/`sum` accumulate over non-NULL rows (`NULL` if none),
`min`/`max` take the extremum of the non-NULL decoded cells (`NULL` if none),
`count` counts the rows whose NULL bit is clear, `count(*)` is the row count.
The `none` arm mirrors `unchecked_unwrap` being unreachable: in the aggregated
path every column has an op. -/
def aggCell (k n : Nat) (data : List Row) (tblIdx : Nat) (col : Col) : LitExt :=
  match col.op with
  | some .avg =>
    let s := sumLoop k n data tblIdx col
    if s.2 = 0 then .null else .f64 (s.1 / (s.2 : ℚ))
  | some .sum =>
    let s := sumLoop k n data tblIdx col
    if s.2 = 0 then .null else .f64 s.1
  | some .min =>
    (minLit ((List.range n).filterMap fun i =>
      match ptr2lit (data.getD (i * k + tblIdx) junkRow) col with
      | .null => none
      | l => some l)).getD .null
  | some .max =>
    (maxLit ((List.range n).filterMap fun i =>
      match ptr2lit (data.getD (i * k + tblIdx) junkRow) col with
      | .null => none
      | l => some l)).getD .null
  | some .count =>
    .int (((List.range n).filter fun i =>
      !(data.getD (i * k + tblIdx) junkRow).isNull col.idx).length : Nat)
  | some .countAll => .int (n : Nat)
  | none => .null

/-- The materialized result (`SelectResult`): flattened header columns and the
row-major data cells. -/
structure SelectResult where
  cols : List Col
  data : List LitExt
  deriving Repr

/-- `SelectResult::new` from src/query/src/select.rs (lines 45-109).  `data` is
the flattened joined row set: `result_num` tuples of one row pointer per table,
`data[i * tbls.len() + idx]` being tuple `i`'s row of table `idx`.  With
aggregation the output is one row of aggregated cells; otherwise each tuple is
projected table by table, each table's selected columns in bucket order.  The
header (`cols`) is the flattened buckets in both cases. -/
def SelectResult.new (tbls : List (List Col)) (data : List Row) : SelectResult :=
  let k := tbls.length
  let result_num := data.length / k
  let has_agg := tbls.any fun tbl => tbl.any fun col => col.op.isSome
  let d :=
    if has_agg then
      tbls.enum.flatMap fun p => p.2.map fun col => aggCell k result_num data p.1 col
    else
      (List.range result_num).flatMap fun i =>
        tbls.enum.flatMap fun p =>
          p.2.map fun col => ptr2lit (data.getD (i * k + p.1) junkRow) col
  { cols := tbls.flatten, data := d }

/-- Indexing into the compiled cross-predicate array
(`cross_preds.get_unchecked(i)` in src/query/src/select.rs); the array always
has `k * k` entries, an absent entry defaults to the empty conjunction. -/
def crossAt (cross : List (Row × Row → Bool)) (i : Nat) : Row × Row → Bool :=
  cross.getD i fun _ => true

/-- One round of the nested-loop join (src/query/src/select.rs lines 253-274):
for table `rIdx`, extend each working tuple by each filtered row of table
`rIdx` that passes both directed cross-predicates against every earlier
column of the tuple, pushing accepted tuples in loop order.  A working tuple
is modelled as the list of its first `rIdx` rows (the source preallocates
width-`k` buffers whose tail is uninitialized until later rounds). -/
def joinStep (k rIdx : Nat) (cross : List (Row × Row → Bool)) (W : List (List Row))
    (rs : List Row) : List (List Row) :=
  W.foldl
    (fun acc t =>
      rs.foldl
        (fun acc2 s =>
          if (List.range rIdx).all fun l =>
              crossAt cross (l * k + rIdx) (t.getD l junkRow, s) &&
              crossAt cross (rIdx * k + l) (s, t.getD l junkRow) then
            acc2 ++ [t ++ [s]]
          else acc2)
        acc)
    []

/-- The whole join loop of `select` (src/query/src/select.rs lines 246-274):
start from table 0's filtered rows as one-column tuples and fold `joinStep`
over the remaining tables in textual order. -/
def joinAll (k : Nat) (cross : List (Row × Row → Bool)) (results : List (List Row)) :
    List (List Row) :=
  ((results.drop 1).enum.foldl
    (fun W p => joinStep k (p.1 + 1) cross W p.2)
    ((results.getD 0 []).map fun x => [x]))

/-- A row identifier: (page id, slot index), from the spec §3. -/
structure Rid where
  page : Nat
  slot : Nat
  deriving DecidableEq, Repr

/-- The statement-visible state of one table: schema, occupied rows in scan
order with their rids, and whether another table's foreign key references it
(the back-pointer count of §3 collapsed to its zero test, which is all
`has_foreign_link_to` consumes). -/
structure TableData where
  name : String
  cols : List ColInfo
  rows : List (Row × Rid)
  foreignLinked : Bool

/-- The statement-visible database state. -/
structure DbState where
  tables : List TableData

/-- Lookup of a table by name (`db.get_ti` / `db.get_tp`, which resolve the
same name and succeed or fail together). -/
def get_tp : List TableData → String → Except Error TableData
  | [], n => .error (.noSuchTable n)
  | t :: rest, n => if t.name == n then .ok t else get_tp rest n

/-- Modelled from the spec: `predicate::one_where`, the single-table WHERE-list
compiler used by src/query/src/delete.rs (declared in the query crate but not
among the provided files).  §4.2: each expression is compiled (here with
`one_predicate`) and "a list of predicates is reduced by short-circuit AND". -/
def one_where (wheres : List Expr) (cols : List ColInfo) : Except Error (Row → Bool) :=
  match wheres with
  | [] => .ok (andPreds [])
  | e :: rest =>
    match one_predicate e cols with
    | .error er => .error er
    | .ok p =>
      match one_where rest cols with
      | .error er => .error er
      | .ok q => .ok fun r => p r && q r

/-- Modelled from the spec: the filter driver (`crate::filter::filter`, not
among the provided files).  §4.3: every candidate row is post-filtered with
the full compiled predicate and surviving rows are passed to the visitor in
scan order; here the visitor of src/query/src/delete.rs collects the
(row, rid) pairs, so the result is the filtered row list. -/
def filterRows (tbl : TableData) (pred : Row → Bool) : List (Row × Rid) :=
  tbl.rows.filter fun rr => pred rr.1

/-- One observable mutation step of DELETE: an index-entry removal
(`index.delete(key, rid)`) or a slot deallocation
(`db.deallocate_data_slot`). -/
inductive Ev where
  | idxDelete (colIdx : Nat) (key : Val) (rid : Rid)
  | dealloc (rid : Rid)
  deriving DecidableEq, Repr

/-- Is the event an index-entry removal? -/
def Ev.isIdx : Ev → Bool
  | .idxDelete _ _ _ => true
  | .dealloc _ => false

/-- Is the event a slot deallocation? -/
def Ev.isDealloc : Ev → Bool
  | .idxDelete _ _ _ => false
  | .dealloc _ => true

/-- The mutation trace of DELETE (src/query/src/delete.rs lines 16-31): first,
for each indexed column in declaration order, remove the index entries of all
matched rows whose value is non-NULL; then deallocate every matched slot. -/
def deleteTrace (cols : List ColInfo) (del : List (Row × Rid)) : List Ev :=
  cols.enum.foldl
    (fun acc p =>
      if p.2.index then
        del.foldl
          (fun acc2 rr =>
            if rr.1.isNull p.1 then acc2
            else acc2 ++ [.idxDelete p.1 (rr.1.cell p.1) rr.2])
          acc
      else acc)
    []
  ++ del.foldl (fun acc rr => acc ++ [.dealloc rr.2]) []

/-- Modelled from the spec: the heap effect of the deallocation loop
(`db.deallocate_data_slot`, not among the provided files).  §4.6: "deallocate
each slot (clear occupied bit, ...)" — the matched rows stop being occupied
rows of the table. -/
def applyDelete (db : DbState) (tname : String) (del : List (Row × Rid)) : DbState :=
  ⟨db.tables.map fun t =>
    if t.name == tname then
      { t with rows := t.rows.filter fun rr => !(del.any fun dd => dd.2 == rr.2) }
    else t⟩

/-- A DELETE statement (src/syntax/src/ast.rs `Delete`). -/
structure DeleteStmt where
  table : String
  where_ : List Expr

/-- The outcome of `delete`: the resulting state, the mutation trace, and the
error if the statement failed (`db` and `trace` untouched on the paths that
return early). -/
structure DeleteResult where
  db : DbState
  trace : List Ev
  err : Option Error

/-- `delete` from src/query/src/delete.rs (lines 8-34): reject if the table is
referenced by another table's foreign key, compile the WHERE list, collect the
matched (row, rid) pairs via the filter driver, then emit the index deletions
followed by the slot deallocations. -/
def delete (d : DeleteStmt) (db : DbState) : DeleteResult :=
  match get_tp db.tables d.table with
  | .error e => ⟨db, [], some e⟩
  | .ok tbl =>
    if tbl.foreignLinked then ⟨db, [], some (.deleteTableWithForeignLink d.table)⟩
    else
      match one_where d.where_ tbl.cols with
      | .error e => ⟨db, [], some e⟩
      | .ok pred =>
        let del := filterRows tbl pred
        ⟨applyDelete db d.table del, deleteTrace tbl.cols del, none⟩

/-- Claim-side destination of one select item: the bucket (table index) the
item is placed in — bucket 0 for `count(*)`, the resolved table otherwise —
and the `Col` built for it.  Used to state the corrected C3 ordering. -/
def aggDest (tbls : List TableSchema) (a : Agg) : Except Error (Nat × Col) :=
  if a.op == some .countAll then .ok (0, ⟨a.op, 0, none⟩)
  else
    match resolveCol tbls a.col with
    | .ok (ti, ciIdx, ci) => .ok (ti, ⟨a.op, ciIdx, some ci⟩)
    | .error e => .error e

/-- Claim-side contents of bucket `t`: the select items resolving to table `t`
(with `count(*)` counted as table 0), in select-list order. -/
def groupSpec (ops : List Agg) (tbls : List TableSchema) (t : Nat) : List Col :=
  ops.filterMap fun a =>
    match aggDest tbls a with
    | .ok (ti, c) => if ti == t then some c else none
    | .error _ => none

/-- Claim-side list of the values aggregated by `avg`/`sum` on column `col` of
table `tblIdx`: the widened cell of each joined tuple whose cell is non-NULL,
in tuple order. -/
def aggVals (tuples : List (List Row)) (tblIdx : Nat) (col : Col) : List ℚ :=
  tuples.filterMap fun t =>
    let r := t.getD tblIdx junkRow
    if r.isNull col.idx then none else some (cellAsF64 r col)

theorem hoNullable_eq_decide (op : CmpOp) : hoNullable op = decide (op = .ne) := by
  cases op <;> rfl

theorem one_predicate_cmp_lit_shape (op : CmpOp) (lc : ColRef) (l : Lit)
    (cols : List ColInfo) (p : Row → Bool) (lIdx : Nat) (lci : ColInfo)
    (hci : get_ci cols lc.col = .ok (lIdx, lci))
    (h : one_predicate (.cmp op lc (.lit l)) cols = .ok p) :
    ∃ ltf, p = compileLit op lIdx ltf := by
  rcases lci with ⟨lname, lty, lidxed⟩
  cases lty <;> rcases l with _ | v | v | v | v <;>
    simp only [one_predicate, Expr.lhs_col, hci] at h <;>
    first
      | exact Except.noConfusion h
      | exact ⟨_, (Except.ok.inj h).symm⟩
      | (split at h <;>
          first
            | exact Except.noConfusion h
            | exact ⟨_, (Except.ok.inj h).symm⟩)

theorem one_predicate_cmp_col_shape (op : CmpOp) (lc rc : ColRef)
    (cols : List ColInfo) (p : Row → Bool) (lIdx : Nat) (lci : ColInfo)
    (hci : get_ci cols lc.col = .ok (lIdx, lci))
    (h : one_predicate (.cmp op lc (.colRef rc)) cols = .ok p) :
    ∃ rIdx rci ltf, get_ci cols rc.col = .ok (rIdx, rci) ∧ p = compileCol op lIdx rIdx ltf := by
  rcases lci with ⟨lname, lty, lidxed⟩
  cases hr : get_ci cols rc.col with
  | error e =>
    simp only [one_predicate, Expr.lhs_col, hci, hr] at h
    exact Except.noConfusion h
  | ok pr =>
    obtain ⟨rIdx, rci⟩ := pr
    rcases rci with ⟨rname, rty, ridxed⟩
    cases lty <;> cases rty <;>
      simp only [one_predicate, Expr.lhs_col, hci, hr] at h <;>
      first
        | exact Except.noConfusion h
        | exact ⟨rIdx, ⟨rname, _, ridxed⟩, _, rfl, (Except.ok.inj h).symm⟩

theorem one_predicate_like_shape (lc : ColRef) (pat : String)
    (cols : List ColInfo) (p : Row → Bool) (lIdx : Nat) (lci : ColInfo)
    (hci : get_ci cols lc.col = .ok (lIdx, lci))
    (h : one_predicate (.like lc pat) cols = .ok p) :
    p = likePred lIdx (likeToRegex pat.data) := by
  rcases lci with ⟨lname, lty, lidxed⟩
  cases lty <;>
    simp only [one_predicate, Expr.lhs_col, hci] at h <;>
    first
      | exact Except.noConfusion h
      | exact (Except.ok.inj h).symm

theorem cross_predicate_shape (op : CmpOp) (cl cr : String)
    (colsL colsR : List ColInfo) (q : Row × Row → Bool)
    (lIdx rIdx : Nat) (lci rci : ColInfo)
    (hl : get_ci colsL cl = .ok (lIdx, lci))
    (hr : get_ci colsR cr = .ok (rIdx, rci))
    (h : cross_predicate op cl cr colsL colsR = .ok q) :
    ∃ ltf, q = compileCross op lIdx rIdx ltf := by
  rcases lci with ⟨lname, lty, lidxed⟩
  rcases rci with ⟨rname, rty, ridxed⟩
  cases lty <;> cases rty <;>
    simp only [cross_predicate, hl, hr] at h <;>
    first
      | exact Except.noConfusion h
      | exact ⟨_, (Except.ok.inj h).symm⟩

theorem compileLit_null (op : CmpOp) (lIdx : Nat) (ltf : Row → Bool) (r : Row)
    (h : r.isNull lIdx = true) : compileLit op lIdx ltf r = decide (op = .ne) := by
  simp [compileLit, h, hoNullable_eq_decide]

theorem compileCol_null (op : CmpOp) (lIdx rIdx : Nat) (ltf : Row → Bool) (r : Row)
    (h : r.isNull lIdx = true ∨ r.isNull rIdx = true) :
    compileCol op lIdx rIdx ltf r = decide (op = .ne) := by
  rcases h with h | h
  · simp [compileCol, h, hoNullable_eq_decide]
  · unfold compileCol
    rw [h]
    cases hl : r.isNull lIdx <;> simp [hoNullable_eq_decide]

theorem compileCross_null (op : CmpOp) (lIdx rIdx : Nat) (ltf : Row × Row → Bool)
    (rowL rowR : Row) (h : rowL.isNull lIdx = true ∨ rowR.isNull rIdx = true) :
    compileCross op lIdx rIdx ltf (rowL, rowR) = decide (op = .ne) := by
  rcases h with h | h
  · simp [compileCross, h, hoNullable_eq_decide]
  · unfold compileCross
    simp only
    rw [h]
    cases hl : rowL.isNull lIdx <;> simp [hoNullable_eq_decide]

/-- Claim C4: for every compiled comparison predicate — single-table, against
a literal or another column, and cross-table — a row (or row pair) whose
operand column has its NULL bit set makes the predicate evaluate to false for
Lt, Le, Ge, Gt, Eq and to true for Ne. -/
theorem C4_null_propagation :
    (∀ (op : CmpOp) (lc : ColRef) (a : Atom) (cols : List ColInfo) (p : Row → Bool)
        (lIdx : Nat) (lci : ColInfo) (row : Row),
      one_predicate (.cmp op lc a) cols = .ok p →
      get_ci cols lc.col = .ok (lIdx, lci) →
      (row.isNull lIdx = true ∨
        (∃ rc rIdx rci, a = .colRef rc ∧ get_ci cols rc.col = .ok (rIdx, rci) ∧
          row.isNull rIdx = true)) →
      p row = decide (op = .ne)) ∧
    (∀ (op : CmpOp) (cl cr : String) (colsL colsR : List ColInfo) (q : Row × Row → Bool)
        (lIdx rIdx : Nat) (lci rci : ColInfo) (rowL rowR : Row),
      cross_predicate op cl cr colsL colsR = .ok q →
      get_ci colsL cl = .ok (lIdx, lci) →
      get_ci colsR cr = .ok (rIdx, rci) →
      (rowL.isNull lIdx = true ∨ rowR.isNull rIdx = true) →
      q (rowL, rowR) = decide (op = .ne)) := by
  constructor
  · intro op lc a cols p lIdx lci row h hci hnull
    cases a with
    | lit l =>
      obtain ⟨ltf, hp⟩ := one_predicate_cmp_lit_shape op lc l cols p lIdx lci hci h
      subst hp
      rcases hnull with hn | ⟨rc, rIdx, rci, habs, _, _⟩
      · exact compileLit_null op lIdx ltf row hn
      · exact Atom.noConfusion habs
    | colRef rc =>
      obtain ⟨rIdx, rci, ltf, hgr, hp⟩ := one_predicate_cmp_col_shape op lc rc cols p lIdx lci hci h
      subst hp
      rcases hnull with hn | ⟨rc2, rIdx2, rci2, heq, hg2, hn2⟩
      · exact compileCol_null op lIdx rIdx ltf row (Or.inl hn)
      · have hrc : rc2 = rc := (Atom.colRef.inj heq).symm
        subst hrc
        rw [hgr] at hg2
        have hidx : rIdx2 = rIdx := congrArg Prod.fst (Except.ok.inj hg2).symm
        rw [hidx] at hn2
        exact compileCol_null op lIdx rIdx ltf row (Or.inr hn2)
  · intro op cl cr colsL colsR q lIdx rIdx lci rci rowL rowR h hl hr hnull
    obtain ⟨ltf, hq⟩ := cross_predicate_shape op cl cr colsL colsR q lIdx rIdx lci rci hl hr h
    subst hq
    exact compileCross_null op lIdx rIdx ltf rowL rowR hnull

/-- A one-column Int table, used for concrete evaluations. -/
def tblA : List ColInfo := [⟨"a", .int, false⟩]

/-- A row whose single Int column holds `v` and is not NULL. -/
def rowIntA (v : Int) : Row := { isNull := fun _ => false, cell := fun _ => .int v }

/-- A row whose columns are all NULL. -/
def rowNullA : Row := { isNull := fun _ => true, cell := fun _ => .int 7 }

/-- Witness for C4: on the concrete table `tblA`, the compiled `a != 5`
predicate applied to an all-NULL row yields `decide (ne = ne)`, i.e. true. -/
theorem C4_null_propagation_witness :
    one_predicate (.cmp .ne ⟨none, "a"⟩ (.lit (.int 5))) tblA =
      .ok (compileLit .ne 0 fun row => decide ((row.cell 0).asInt < 5)) ∧
    rowNullA.isNull 0 = true ∧
    (compileLit .ne 0 fun row => decide ((row.cell 0).asInt < 5)) rowNullA =
      decide (CmpOp.ne = CmpOp.ne) :=
  ⟨rfl, rfl,
    C4_null_propagation.1 .ne ⟨none, "a"⟩ (.lit (.int 5)) tblA _ 0 ⟨"a", .int, false⟩
      rowNullA rfl rfl (Or.inl rfl)⟩

/-- Claim C1 (code bug): `handle_op!` in src/query/src/predicate.rs expands
every one of the six comparison operators to the `<` specialization, so the
compiled predicate does not apply the comparison named by the operator.
Concretely on an Int column holding 5: `a = 5` and `a <= 5` evaluate to false
though 5 = 5 and 5 ≤ 5 hold, and `a >= 4`, `a > 4` evaluate to false though
5 ≥ 4 and 5 > 4 hold (the claimed dispatch would return true in all four
cases, as the last conjunct records). -/
theorem C1_all_ops_compiled_as_lt :
    runPred (.cmp .eq ⟨none, "a"⟩ (.lit (.int 5))) tblA (rowIntA 5) = .ok false ∧
    runPred (.cmp .le ⟨none, "a"⟩ (.lit (.int 5))) tblA (rowIntA 5) = .ok false ∧
    runPred (.cmp .ge ⟨none, "a"⟩ (.lit (.int 4))) tblA (rowIntA 5) = .ok false ∧
    runPred (.cmp .gt ⟨none, "a"⟩ (.lit (.int 4))) tblA (rowIntA 5) = .ok false ∧
    ((5 : Int) = 5 ∧ (5 : Int) ≤ 5 ∧ (5 : Int) ≥ 4 ∧ (5 : Int) > 4) :=
  ⟨rfl, rfl, rfl, rfl, rfl, by norm_num, by norm_num, by norm_num⟩

/-- A one-column VarChar table, used for concrete evaluations. -/
def tblS : List ColInfo := [⟨"s", .varchar, false⟩]

/-- A row whose single string column holds `v` and is not NULL. -/
def rowStr (v : String) : Row := { isNull := fun _ => false, cell := fun _ => .str v }

/-- Claim C2 (code bug): the compiled LIKE matcher calls `Regex::is_match` on
the translated pattern without anchoring it, so it performs a substring
search.  For the pattern `ab_d%` and the stored string `zab3d`, the compiled
predicate accepts (a match starts at position 1) although the anchored
full-match semantics the claim states rejects it (the string does not start
with `ab`); the last conjunct shows a string both semantics accept. -/
theorem C2_like_is_substring_search :
    runPred (.like ⟨none, "s"⟩ "ab_d%") tblS (rowStr "zab3d") = .ok true ∧
    fullMatch (likeToRegex "ab_d%".data) "zab3d".data = false ∧
    fullMatch (likeToRegex "ab_d%".data) "ab3dxyz".data = true :=
  ⟨rfl, rfl, rfl⟩

/-- Claim C10: a compiled LIKE predicate returns false on every row whose
tested column has its NULL bit set. -/
theorem C10_like_null_is_false (lc : ColRef) (pat : String) (cols : List ColInfo)
    (p : Row → Bool) (lIdx : Nat) (lci : ColInfo) (row : Row)
    (hci : get_ci cols lc.col = .ok (lIdx, lci))
    (h : one_predicate (.like lc pat) cols = .ok p)
    (hnull : row.isNull lIdx = true) :
    p row = false := by
  rw [one_predicate_like_shape lc pat cols p lIdx lci hci h]
  simp [likePred, hnull]

/-- A row whose single string column is NULL. -/
def rowNullS : Row := { isNull := fun _ => true, cell := fun _ => .str "ab" }

/-- Witness for C10: the compiled `s LIKE 'a%'` predicate on `tblS` returns
false on a NULL row. -/
theorem C10_like_null_is_false_witness :
    one_predicate (.like ⟨none, "s"⟩ "a%") tblS = .ok (likePred 0 (likeToRegex "a%".data)) ∧
    rowNullS.isNull 0 = true ∧
    likePred 0 (likeToRegex "a%".data) rowNullS = false :=
  ⟨rfl, rfl,
    C10_like_null_is_false ⟨none, "s"⟩ "a%" tblS _ 0 ⟨"s", .varchar, false⟩ rowNullS rfl rfl rfl⟩

/-- Claim C9: DELETE on a table referenced by another table's foreign key
fails with `DeleteTableWithForeignLink`, leaves the database state unchanged
and performs no mutation (empty trace): the check precedes predicate
compilation, filtering and every mutation. -/
theorem C9_delete_foreign_link_rejected (d : DeleteStmt) (db : DbState) (tbl : TableData)
    (h1 : get_tp db.tables d.table = .ok tbl)
    (h2 : tbl.foreignLinked = true) :
    delete d db = ⟨db, [], some (.deleteTableWithForeignLink d.table)⟩ := by
  unfold delete
  rw [h1]
  simp [h2]

/-- A table referenced by another table's foreign key, with one row. -/
def fkTbl : TableData :=
  ⟨"t", [⟨"a", .int, false⟩], [(rowIntA 1, ⟨1, 0⟩)], true⟩

/-- A database holding `fkTbl`. -/
def fkDb : DbState := ⟨[fkTbl]⟩

/-- Witness for C9: deleting from the foreign-key-referenced table `t` of
`fkDb` is rejected and changes nothing. -/
theorem C9_delete_foreign_link_rejected_witness :
    delete ⟨"t", []⟩ fkDb = ⟨fkDb, [], some (.deleteTableWithForeignLink "t")⟩ :=
  C9_delete_foreign_link_rejected ⟨"t", []⟩ fkDb fkTbl rfl rfl

theorem foldl_mem_preserve {α β : Type} (p : β → Prop) :
    ∀ (l : List α) (f : List β → α → List β) (acc : List β),
      (∀ acc2 x, x ∈ l → (∀ e ∈ acc2, p e) → ∀ e ∈ f acc2 x, p e) →
      (∀ e ∈ acc, p e) → ∀ e ∈ l.foldl f acc, p e := by
  intro l
  induction l with
  | nil =>
    intro f acc hstep hacc
    simpa using hacc
  | cons x xs ih =>
    intro f acc hstep hacc
    simp only [List.foldl_cons]
    exact ih f (f acc x)
      (fun acc2 y hy => hstep acc2 y (List.mem_cons_of_mem _ hy))
      (hstep acc x (List.mem_cons_self _ _) hacc)

/-- The first phase of `deleteTrace`: the index-deletion events. -/
def deleteTraceIdx (cols : List ColInfo) (del : List (Row × Rid)) : List Ev :=
  cols.enum.foldl
    (fun acc p =>
      if p.2.index then
        del.foldl
          (fun acc2 rr =>
            if rr.1.isNull p.1 then acc2
            else acc2 ++ [.idxDelete p.1 (rr.1.cell p.1) rr.2])
          acc
      else acc)
    []

/-- The second phase of `deleteTrace`: the deallocation events. -/
def deleteTraceDealloc (del : List (Row × Rid)) : List Ev :=
  del.foldl (fun acc rr => acc ++ [.dealloc rr.2]) []

theorem deleteTrace_eq_append (cols : List ColInfo) (del : List (Row × Rid)) :
    deleteTrace cols del = deleteTraceIdx cols del ++ deleteTraceDealloc del := rfl

theorem deleteTraceIdx_all_isIdx (cols : List ColInfo) (del : List (Row × Rid)) :
    ∀ e ∈ deleteTraceIdx cols del, e.isIdx = true := by
  unfold deleteTraceIdx
  refine foldl_mem_preserve (fun (e : Ev) => e.isIdx = true) cols.enum
    (fun acc p =>
      if p.2.index then
        del.foldl
          (fun acc2 rr =>
            if rr.1.isNull p.1 then acc2
            else acc2 ++ [Ev.idxDelete p.1 (rr.1.cell p.1) rr.2])
          acc
      else acc)
    [] ?_ ?_
  · intro acc2 x _ hacc2
    by_cases hx : x.2.index
    · simp only [hx, if_pos]
      refine foldl_mem_preserve (fun (e : Ev) => e.isIdx = true) del
        (fun acc3 rr =>
          if rr.1.isNull x.1 then acc3
          else acc3 ++ [Ev.idxDelete x.1 (rr.1.cell x.1) rr.2])
        acc2 ?_ ?_
      · intro acc3 rr _ hacc3 e he
        by_cases hn : rr.1.isNull x.1
        · simp only [if_pos hn] at he
          exact hacc3 e he
        · simp only [if_neg hn] at he
          rcases List.mem_append.mp he with h | h
          · exact hacc3 e h
          · rw [List.mem_singleton.mp h]
            rfl
      · exact hacc2
    · simpa only [hx, if_neg, if_false] using hacc2
  · intro e he
    exact absurd he (List.not_mem_nil e)

theorem deleteTraceDealloc_all_isDealloc (del : List (Row × Rid)) :
    ∀ e ∈ deleteTraceDealloc del, e.isDealloc = true := by
  unfold deleteTraceDealloc
  refine foldl_mem_preserve (fun (e : Ev) => e.isDealloc = true) del
    (fun acc rr => acc ++ [Ev.dealloc rr.2]) [] ?_ ?_
  · intro acc2 rr _ hacc2 e he
    rcases List.mem_append.mp he with h | h
    · exact hacc2 e h
    · rw [List.mem_singleton.mp h]
      rfl
  · intro e he
    exact absurd he (List.not_mem_nil e)

theorem Ev_not_isIdx_and_isDealloc (e : Ev) (h1 : e.isIdx = true) (h2 : e.isDealloc = true) :
    False := by
  cases e <;> simp [Ev.isIdx, Ev.isDealloc] at h1 h2

theorem deleteTrace_order (cols : List ColInfo) (del : List (Row × Rid)) (i j : Nat)
    (hi : i < (deleteTrace cols del).length) (hj : j < (deleteTrace cols del).length)
    (hidx : ((deleteTrace cols del).getD i (.dealloc ⟨0, 0⟩)).isIdx = true)
    (hde : ((deleteTrace cols del).getD j (.dealloc ⟨0, 0⟩)).isDealloc = true) :
    i < j := by
  rw [deleteTrace_eq_append] at hi hj hidx hde
  rw [List.getD_eq_getElem _ _ hi] at hidx
  rw [List.getD_eq_getElem _ _ hj] at hde
  have hjge : (deleteTraceIdx cols del).length ≤ j := by
    by_contra hlt
    push_neg at hlt
    rw [List.getElem_append_left hlt] at hde
    exact Ev_not_isIdx_and_isDealloc _
      (deleteTraceIdx_all_isIdx cols del _ (List.getElem_mem hlt)) hde
  have hilt : i < (deleteTraceIdx cols del).length := by
    by_contra hge
    push_neg at hge
    have hlen : i - (deleteTraceIdx cols del).length < (deleteTraceDealloc del).length := by
      rw [List.length_append] at hi
      omega
    rw [List.getElem_append_right hge] at hidx
    exact Ev_not_isIdx_and_isDealloc _ hidx
      (deleteTraceDealloc_all_isDealloc del _ (List.getElem_mem hlen))
  exact lt_of_lt_of_le hilt hjge

/-- Claim C8: in the trace of any DELETE, every index-entry removal happens
before every slot deallocation: the index-deletion loop over all indexed
columns and all matched rows completes before the first slot is
deallocated. -/
theorem C8_index_deletes_before_dealloc (d : DeleteStmt) (db : DbState) (i j : Nat)
    (hi : i < (delete d db).trace.length) (hj : j < (delete d db).trace.length)
    (hidx : ((delete d db).trace.getD i (.dealloc ⟨0, 0⟩)).isIdx = true)
    (hde : ((delete d db).trace.getD j (.dealloc ⟨0, 0⟩)).isDealloc = true) :
    i < j := by
  unfold delete at hi hj hidx hde
  cases h1 : get_tp db.tables d.table with
  | error e =>
    rw [h1] at hi
    exact absurd hi (by simp)
  | ok tbl =>
    rw [h1] at hi hj hidx hde
    by_cases h2 : tbl.foreignLinked
    · simp only [h2, if_pos] at hi
      exact absurd hi (by simp)
    · simp only [h2, if_neg, Bool.false_eq_true, if_false] at hi hj hidx hde
      cases h3 : one_where d.where_ tbl.cols with
      | error e =>
        rw [h3] at hi
        exact absurd hi (by simp)
      | ok pred =>
        rw [h3] at hi hj hidx hde
        exact deleteTrace_order tbl.cols (filterRows tbl pred) i j hi hj hidx hde

/-- A table with an indexed Int column and one row, for the C8 witness. -/
def idxTbl : TableData := ⟨"t", [⟨"a", .int, true⟩], [(rowIntA 1, ⟨1, 0⟩)], false⟩

/-- A database holding `idxTbl`. -/
def idxDb : DbState := ⟨[idxTbl]⟩

/-- Witness for C8: deleting the only row of `idxTbl` produces the trace
[index deletion, slot deallocation], and position 0 (the index deletion)
precedes position 1 (the deallocation). -/
theorem C8_index_deletes_before_dealloc_witness :
    (delete ⟨"t", []⟩ idxDb).trace =
      [.idxDelete 0 (.int 1) ⟨1, 0⟩, .dealloc ⟨1, 0⟩] ∧
    ((delete ⟨"t", []⟩ idxDb).trace.getD 0 (.dealloc ⟨0, 0⟩)).isIdx = true ∧
    ((delete ⟨"t", []⟩ idxDb).trace.getD 1 (.dealloc ⟨0, 0⟩)).isDealloc = true ∧
    (0 : Nat) < 1 :=
  ⟨rfl, rfl, rfl,
    C8_index_deletes_before_dealloc ⟨"t", []⟩ idxDb 0 1
      (by rw [show (delete ⟨"t", []⟩ idxDb).trace =
            [.idxDelete 0 (.int 1) ⟨1, 0⟩, .dealloc ⟨1, 0⟩] from rfl]; decide)
      (by rw [show (delete ⟨"t", []⟩ idxDb).trace =
            [.idxDelete 0 (.int 1) ⟨1, 0⟩, .dealloc ⟨1, 0⟩] from rfl]; decide)
      rfl rfl⟩

theorem foldl_filter_append {α β : Type} (p : α → Bool) (h : α → β) :
    ∀ (rs : List α) (acc : List β),
      rs.foldl (fun a2 s => if p s then a2 ++ [h s] else a2) acc =
        acc ++ (rs.filter p).map h := by
  intro rs
  induction rs with
  | nil => intro acc; simp
  | cons x xs ih =>
    intro acc
    simp only [List.foldl_cons, List.filter_cons]
    by_cases hx : p x
    · rw [if_pos hx, if_pos hx, ih]
      simp
    · rw [if_neg hx, if_neg hx, ih]

theorem foldl_flatMap_append {α β : Type} (g : α → List β) :
    ∀ (W : List α) (acc : List β),
      W.foldl (fun a t => a ++ g t) acc = acc ++ W.flatMap g := by
  intro W
  induction W with
  | nil => intro acc; simp
  | cons t ts ih =>
    intro acc
    simp only [List.foldl_cons, List.flatMap_cons, ih]
    simp

theorem all_range_pair_eq_decide (n : Nat) (f g : Nat → Bool) :
    ((List.range n).all fun l => f l && g l) =
      decide (∀ l, l < n → f l = true ∧ g l = true) := by
  by_cases h : ∀ l, l < n → f l = true ∧ g l = true
  · rw [decide_eq_true h]
    rw [List.all_eq_true]
    intro x hx
    rcases h x (List.mem_range.mp hx) with ⟨h1, h2⟩
    rw [h1, h2]
    rfl
  · rw [decide_eq_false h]
    by_contra hall
    rw [Bool.not_eq_false, List.all_eq_true] at hall
    exact h fun l hl =>
      (Bool.and_eq_true _ _).mp (hall l (List.mem_range.mpr hl))

/-- Claim C5: one round of the k-table join produces exactly the tuples
`t ++ [s]` with `t` from the previous working set (outer order) and `s` from
table `rIdx`'s filtered rows (inner order) such that for every earlier index
`l < rIdx` both directed cross-predicate conjunctions — slot `l*k + rIdx` on
`(t[l], s)` and slot `rIdx*k + l` on `(s, t[l])` — hold. -/
theorem C5_join_step_exact (k rIdx : Nat) (cross : List (Row × Row → Bool))
    (W : List (List Row)) (rs : List Row) :
    joinStep k rIdx cross W rs =
      W.flatMap fun t =>
        (rs.filter fun s =>
          decide (∀ l, l < rIdx →
            crossAt cross (l * k + rIdx) (t.getD l junkRow, s) = true ∧
            crossAt cross (rIdx * k + l) (s, t.getD l junkRow) = true)).map
          fun s => t ++ [s] := by
  unfold joinStep
  have hstep :
      (fun (acc : List (List Row)) (t : List Row) =>
        rs.foldl
          (fun acc2 s =>
            if (List.range rIdx).all fun l =>
                crossAt cross (l * k + rIdx) (t.getD l junkRow, s) &&
                crossAt cross (rIdx * k + l) (s, t.getD l junkRow) then
              acc2 ++ [t ++ [s]]
            else acc2)
          acc) =
      fun acc t =>
        acc ++
          ((rs.filter fun s =>
            decide (∀ l, l < rIdx →
              crossAt cross (l * k + rIdx) (t.getD l junkRow, s) = true ∧
              crossAt cross (rIdx * k + l) (s, t.getD l junkRow) = true)).map
            fun s => t ++ [s]) := by
    funext acc t
    have hcond :
        (fun s => (List.range rIdx).all fun l =>
          crossAt cross (l * k + rIdx) (t.getD l junkRow, s) &&
          crossAt cross (rIdx * k + l) (s, t.getD l junkRow)) =
        fun s => decide (∀ l, l < rIdx →
          crossAt cross (l * k + rIdx) (t.getD l junkRow, s) = true ∧
          crossAt cross (rIdx * k + l) (s, t.getD l junkRow) = true) :=
      funext fun s => all_range_pair_eq_decide rIdx _ _
    rw [foldl_filter_append
      (fun s => (List.range rIdx).all fun l =>
        crossAt cross (l * k + rIdx) (t.getD l junkRow, s) &&
        crossAt cross (rIdx * k + l) (s, t.getD l junkRow))
      (fun s => t ++ [s]) rs acc, hcond]
  rw [hstep, foldl_flatMap_append]
  simp

theorem foldl_congr_mem {α β : Type} :
    ∀ (l : List α) (f g : β → α → β) (init : β),
      (∀ acc x, x ∈ l → f acc x = g acc x) → l.foldl f init = l.foldl g init := by
  intro l
  induction l with
  | nil => intro f g init _; rfl
  | cons a l ih =>
    intro f g init h
    simp only [List.foldl_cons]
    rw [h init a (List.mem_cons_self _ _)]
    exact ih f g (g init a) fun acc x hx => h acc x (List.mem_cons_of_mem _ hx)

theorem range_foldl_getD {α β : Type} (d : α) (f : β → α → β) :
    ∀ (l : List α) (init : β),
      (List.range l.length).foldl (fun acc i => f acc (l.getD i d)) init = l.foldl f init := by
  intro l
  induction l with
  | nil => intro init; rfl
  | cons a l ih =>
    intro init
    rw [List.length_cons, List.range_succ_eq_map, List.foldl_cons, List.foldl_map]
    simp only [List.getD_cons_succ, List.getD_cons_zero]
    exact ih (f init a)

theorem range_filter_length_getD {α : Type} (d : α) (q : α → Bool) :
    ∀ l : List α,
      ((List.range l.length).filter fun i => q (l.getD i d)).length = l.countP q := by
  intro l
  induction l with
  | nil => rfl
  | cons a l ih =>
    rw [List.length_cons, List.range_succ_eq_map, List.filter_cons, List.countP_cons]
    have hcomp : ((List.map Nat.succ (List.range l.length)).filter
        fun i => q ((a :: l).getD i d)).length =
        ((List.range l.length).filter fun i => q (l.getD i d)).length := by
      rw [List.filter_map, List.length_map]
      congr 1
    rw [List.getD_cons_zero]
    by_cases ha : q a = true
    · rw [if_pos ha, if_pos ha, List.length_cons, hcomp, ih]
    · rw [if_neg ha, if_neg ha, hcomp, ih]
      omega

theorem flatten_getD {α : Type} (d : α) (k : Nat) :
    ∀ (tuples : List (List α)), (∀ t ∈ tuples, t.length = k) →
      ∀ i idx, idx < k → i < tuples.length →
        tuples.flatten.getD (i * k + idx) d = (tuples.getD i []).getD idx d := by
  intro tuples
  induction tuples with
  | nil =>
    intro _ i idx _ hi
    exact absurd hi (by simp)
  | cons t ts ih =>
    intro hu i idx hidx hi
    have ht : t.length = k := hu t (List.mem_cons_self _ _)
    cases i with
    | zero =>
      simp only [Nat.zero_mul, Nat.zero_add, List.flatten_cons, List.getD_cons_zero]
      exact List.getD_append t ts.flatten d idx (ht ▸ hidx)
    | succ i =>
      simp only [List.flatten_cons, List.getD_cons_succ]
      have harith : (i + 1) * k + idx = t.length + (i * k + idx) := by
        rw [ht]; ring
      rw [harith, List.getD_append_right t ts.flatten d _ (Nat.le_add_right _ _),
        Nat.add_sub_cancel_left]
      exact ih (fun x hx => hu x (List.mem_cons_of_mem _ hx)) i idx hidx
        (by simpa using hi)

theorem foldl_sum_cnt (tblIdx : Nat) (col : Col) :
    ∀ (tuples : List (List Row)) (s : ℚ) (c : Nat),
      tuples.foldl
        (fun acc t =>
          let r := t.getD tblIdx junkRow
          if !r.isNull col.idx then (acc.1 + cellAsF64 r col, acc.2 + 1) else acc)
        (s, c) =
      (s + (aggVals tuples tblIdx col).sum, c + (aggVals tuples tblIdx col).length) := by
  intro tuples
  induction tuples with
  | nil =>
    intro s c
    simp [aggVals]
  | cons t ts ih =>
    intro s c
    simp only [List.foldl_cons, aggVals, List.filterMap_cons]
    by_cases hn : (t.getD tblIdx junkRow).isNull col.idx = true
    · simp only [hn, Bool.not_true, Bool.false_eq_true, if_false]
      simpa [aggVals] using ih s c
    · rw [Bool.not_eq_true] at hn
      simp only [hn, Bool.not_false, Bool.false_eq_true, eq_self_iff_true, if_true, if_false]
      rw [ih]
      simp only [aggVals, List.sum_cons, List.length_cons, Prod.mk.injEq]
      exact ⟨by ring, by omega⟩

theorem sumLoop_flatten (k : Nat) (tuples : List (List Row)) (tblIdx : Nat) (col : Col)
    (hu : ∀ t ∈ tuples, t.length = k) (hidx : tblIdx < k) :
    sumLoop k tuples.length tuples.flatten tblIdx col =
      ((aggVals tuples tblIdx col).sum, (aggVals tuples tblIdx col).length) := by
  unfold sumLoop
  have hcongr :
      (List.range tuples.length).foldl
        (fun acc i =>
          let r := tuples.flatten.getD (i * k + tblIdx) junkRow
          if !r.isNull col.idx then (acc.1 + cellAsF64 r col, acc.2 + 1) else acc)
        (0, 0) =
      (List.range tuples.length).foldl
        (fun acc i =>
          let r := (tuples.getD i []).getD tblIdx junkRow
          if !r.isNull col.idx then (acc.1 + cellAsF64 r col, acc.2 + 1) else acc)
        (0, 0) :=
    foldl_congr_mem _ _ _ _ fun acc i hi => by
      simp only [flatten_getD junkRow k tuples hu i tblIdx hidx (List.mem_range.mp hi)]
  refine hcongr.trans ?_
  refine (range_foldl_getD ([] : List Row)
    (fun acc t =>
      let r := t.getD tblIdx junkRow
      if !r.isNull col.idx then (acc.1 + cellAsF64 r col, acc.2 + 1) else acc)
    tuples ((0 : ℚ), (0 : Nat))).trans ?_
  rw [foldl_sum_cnt]
  simp

theorem countLoop_flatten (k : Nat) (tuples : List (List Row)) (tblIdx : Nat) (col : Col)
    (hu : ∀ t ∈ tuples, t.length = k) (hidx : tblIdx < k) :
    ((List.range tuples.length).filter fun i =>
        !(tuples.flatten.getD (i * k + tblIdx) junkRow).isNull col.idx).length =
      tuples.countP fun t => !(t.getD tblIdx junkRow).isNull col.idx := by
  have hfil : ((List.range tuples.length).filter fun i =>
      !(tuples.flatten.getD (i * k + tblIdx) junkRow).isNull col.idx) =
      (List.range tuples.length).filter fun i =>
        !((tuples.getD i []).getD tblIdx junkRow).isNull col.idx :=
    List.filter_congr fun i hi => by
      rw [flatten_getD junkRow k tuples hu i tblIdx hidx (List.mem_range.mp hi)]
  rw [hfil]
  exact range_filter_length_getD ([] : List Row)
    (fun t => !(t.getD tblIdx junkRow).isNull col.idx) tuples

theorem flatten_length_uniform {α : Type} (k : Nat) (tuples : List (List α))
    (hu : ∀ t ∈ tuples, t.length = k) : tuples.flatten.length = tuples.length * k := by
  induction tuples with
  | nil => simp
  | cons t ts ih =>
    rw [List.flatten_cons, List.length_append, List.length_cons,
      ih fun x hx => hu x (List.mem_cons_of_mem _ hx), hu t (List.mem_cons_self _ _)]
    ring

/-- Claim C6: for an aggregated SELECT over a joined row set of `n` tuples,
`count(*)` yields `n` — NULL cells included — and `count(c)` yields the number
of tuples whose cell for column `c` does not have its NULL bit set.  The first
conjunct records that `SelectResult.new`'s `result_num` (computed as
`data.len() / tbls.len()`) equals `n` on such data. -/
theorem C6_count (tbls : List (List Col)) (tuples : List (List Row)) (tblIdx : Nat) (col : Col)
    (hk : 0 < tbls.length) (hu : ∀ t ∈ tuples, t.length = tbls.length)
    (hidx : tblIdx < tbls.length) :
    tuples.flatten.length / tbls.length = tuples.length ∧
    (col.op = some .countAll →
      aggCell tbls.length tuples.length tuples.flatten tblIdx col =
        .int (tuples.length : Int)) ∧
    (col.op = some .count →
      aggCell tbls.length tuples.length tuples.flatten tblIdx col =
        .int ((tuples.countP fun t => !(t.getD tblIdx junkRow).isNull col.idx) : Int)) := by
  refine ⟨?_, ?_, ?_⟩
  · rw [flatten_length_uniform tbls.length tuples hu]
    exact Nat.mul_div_cancel tuples.length hk
  · intro hop
    unfold aggCell
    rw [hop]
  · intro hop
    unfold aggCell
    rw [hop]
    rw [countLoop_flatten tbls.length tuples tblIdx col hu hidx]

/-- Output column descriptor for `count(b)`, used in witnesses. -/
def colCnt : Col := ⟨some .count, 0, some ⟨"b", .int, false⟩⟩

/-- Output column descriptor for `count(*)`, used in witnesses. -/
def colCntAll : Col := ⟨some .countAll, 0, none⟩

/-- Witness for C6: over the two-tuple joined set {(NULL), (2)} of a single
table, `count(b)` yields 1 and `count(*)` yields 2. -/
theorem C6_count_witness :
    (0 : Nat) < 1 ∧
    aggCell 1 2 [[rowNullA], [rowIntA 2]].flatten 0 colCnt = .int 1 ∧
    aggCell 1 2 [[rowNullA], [rowIntA 2]].flatten 0 colCntAll = .int 2 := by
  have hu : ∀ t ∈ [[rowNullA], [rowIntA 2]], t.length = ([[colCnt]] : List (List Col)).length := by
    intro t ht
    rcases List.mem_cons.mp ht with h | h
    · rw [h]; rfl
    · rcases List.mem_cons.mp h with h2 | h2
      · rw [h2]; rfl
      · exact absurd h2 (List.not_mem_nil t)
  refine ⟨by decide, ?_, ?_⟩
  · have h := (C6_count [[colCnt]] [[rowNullA], [rowIntA 2]] 0 colCnt
      (by decide) hu (by decide)).2.2 rfl
    exact h.trans (by decide)
  · have h := (C6_count [[colCntAll]] [[rowNullA], [rowIntA 2]] 0 colCntAll
      (by decide) hu (by decide)).2.1 rfl
    exact h.trans (by decide)

theorem mk_tbls_go_ok_types (tbls : List TableSchema) :
    ∀ (ops : List Agg) (ret final : List (List Col)),
      mk_tbls_go tbls ops ret = .ok final →
      ∀ a ∈ ops, (a.op = some .avg ∨ a.op = some .sum) →
      ∀ ti ciIdx ci, resolveCol tbls a.col = .ok (ti, ciIdx, ci) →
      (ci.ty = .int ∨ ci.ty = .bool ∨ ci.ty = .float) := by
  intro ops
  induction ops with
  | nil =>
    intro ret final _ a ha
    exact absurd ha (List.not_mem_nil a)
  | cons a0 rest ih =>
    intro ret final h a ha hop ti ciIdx ci hres
    unfold mk_tbls_go at h
    by_cases hca : (a0.op == some AggOp.countAll) = true
    · rw [if_pos hca] at h
      rcases List.mem_cons.mp ha with heq | hmem
      · subst heq
        rcases hop with ho | ho <;> rw [ho] at hca <;> exact absurd hca (by decide)
      · exact ih _ final h a hmem hop ti ciIdx ci hres
    · rw [if_neg hca] at h
      cases hres0 : resolveCol tbls a0.col with
      | error e =>
        rw [hres0] at h
        exact Except.noConfusion h
      | ok trip =>
        obtain ⟨ti0, ciIdx0, ci0⟩ := trip
        rw [hres0] at h
        rcases List.mem_cons.mp ha with heq | hmem
        · subst heq
          rw [hres0] at hres
          have hci : ci0 = ci := congrArg (fun p => p.2.2) (Except.ok.inj hres)
          subst hci
          rcases ci0 with ⟨cn, cty, cidx⟩
          rcases hop with ho | ho <;> rw [ho] at h <;> cases cty <;>
            first
              | exact Or.inl rfl
              | exact Or.inr (Or.inl rfl)
              | exact Or.inr (Or.inr rfl)
              | exact Except.noConfusion h
        · cases hop0 : a0.op with
          | none =>
            rw [hop0] at h
            exact ih _ final h a hmem hop ti ciIdx ci hres
          | some op0 =>
            rw [hop0] at h
            repeat' split at h
            all_goals
              first
                | exact Except.noConfusion h
                | exact ih _ final h a hmem hop ti ciIdx ci hres

theorem mk_tbls_go_bad_errors (tbls : List TableSchema) :
    ∀ (ops : List Agg) (ret : List (List Col)),
      (∀ a ∈ ops, a.op = some .countAll ∨
        ∃ ti ciIdx ci, resolveCol tbls a.col = .ok (ti, ciIdx, ci)) →
      (∃ a ∈ ops, (a.op = some .avg ∨ a.op = some .sum) ∧
        ∃ ti ciIdx ci, resolveCol tbls a.col = .ok (ti, ciIdx, ci) ∧
          ¬(ci.ty = .int ∨ ci.ty = .bool ∨ ci.ty = .float)) →
      ∃ c o, mk_tbls_go tbls ops ret = .error (.invalidAgg c o) := by
  intro ops
  induction ops with
  | nil =>
    intro ret _ hbad
    obtain ⟨a, ha, _⟩ := hbad
    exact absurd ha (List.not_mem_nil a)
  | cons a0 rest ih =>
    intro ret hres hbad
    unfold mk_tbls_go
    by_cases hca : (a0.op == some AggOp.countAll) = true
    · rw [if_pos hca]
      refine ih _ (fun a ha => hres a (List.mem_cons_of_mem _ ha)) ?_
      obtain ⟨a, ha, hop, hrest⟩ := hbad
      rcases List.mem_cons.mp ha with heq | hmem
      · subst heq
        rcases hop with ho | ho <;> rw [ho] at hca <;> exact absurd hca (by decide)
      · exact ⟨a, hmem, hop, hrest⟩
    · rw [if_neg hca]
      rcases hres a0 (List.mem_cons_self _ _) with hcac | ⟨ti0, ciIdx0, ci0, hres0⟩
      · exact absurd (by rw [hcac]; decide) hca
      · rw [hres0]
        cases hop0 : a0.op with
        | none =>
          refine ih _ (fun a ha => hres a (List.mem_cons_of_mem _ ha)) ?_
          obtain ⟨a, ha, hop, hrest⟩ := hbad
          rcases List.mem_cons.mp ha with heq | hmem
          · subst heq
            rcases hop with ho | ho <;> rw [ho] at hop0 <;> exact Option.noConfusion hop0
          · exact ⟨a, hmem, hop, hrest⟩
        | some op0 =>
          show ∃ c o,
            (if ((op0 == AggOp.avg || op0 == AggOp.sum) && ci0.ty != BareTy.int &&
                  ci0.ty != BareTy.float && ci0.ty != BareTy.bool) = true then
                Except.error (Error.invalidAgg ci0.ty op0)
              else mk_tbls_go tbls rest
                (ret.set ti0 (ret.getD ti0 [] ++ [⟨some op0, ciIdx0, some ci0⟩]))) =
              Except.error (Error.invalidAgg c o)
          by_cases hg : ((op0 == AggOp.avg || op0 == AggOp.sum) && ci0.ty != BareTy.int &&
              ci0.ty != BareTy.float && ci0.ty != BareTy.bool) = true
          · rw [if_pos hg]
            exact ⟨ci0.ty, op0, rfl⟩
          · rw [if_neg hg]
            refine ih _ (fun a ha => hres a (List.mem_cons_of_mem _ ha)) ?_
            obtain ⟨a, ha, hop, ti, ciIdx, ci, hresb, hbadty⟩ := hbad
            rcases List.mem_cons.mp ha with heq | hmem
            · subst heq
              exfalso
              rw [hres0] at hresb
              have hci : ci0 = ci := congrArg (fun p => p.2.2) (Except.ok.inj hresb)
              subst hci
              apply hg
              rcases hop with ho | ho
              · have hop0q : op0 = AggOp.avg := by
                  rw [ho] at hop0
                  exact (Option.some.inj hop0).symm
                subst hop0q
                rcases ci0 with ⟨cn, cty, cidx⟩
                cases cty <;>
                  first
                    | exact absurd (Or.inl rfl) hbadty
                    | exact absurd (Or.inr (Or.inl rfl)) hbadty
                    | exact absurd (Or.inr (Or.inr rfl)) hbadty
                    | rfl
              · have hop0q : op0 = AggOp.sum := by
                  rw [ho] at hop0
                  exact (Option.some.inj hop0).symm
                subst hop0q
                rcases ci0 with ⟨cn, cty, cidx⟩
                cases cty <;>
                  first
                    | exact absurd (Or.inl rfl) hbadty
                    | exact absurd (Or.inr (Or.inl rfl)) hbadty
                    | exact absurd (Or.inr (Or.inr rfl)) hbadty
                    | rfl
            · exact ⟨a, hmem, hop, ti, ciIdx, ci, hresb, hbadty⟩

/-- Claim C7: `sum(c)` and `avg(c)` require the column type to be Int32, Bool
or Float32 — a select list that compiles never contains an avg/sum item of
another type, and one that passes the mixed-select check, resolves every item
and contains such an item fails with `InvalidAgg` — and over the joined row
set the value is accumulated over the non-NULL rows in the 64-bit accumulator
(modelled with exact rationals): NULL when every row is NULL, otherwise
`sum` is the accumulated sum and `avg` is that sum divided by the count of
non-NULL rows. -/
theorem C7_sum_avg_semantics :
    (∀ (ops : List Agg) (tbls : List TableSchema) (ret : List (List Col)),
      mk_tbls (some ops) tbls = .ok ret →
      ∀ a ∈ ops, (a.op = some .avg ∨ a.op = some .sum) →
      ∀ ti ciIdx ci, resolveCol tbls a.col = .ok (ti, ciIdx, ci) →
      (ci.ty = .int ∨ ci.ty = .bool ∨ ci.ty = .float)) ∧
    (∀ (ops : List Agg) (tbls : List TableSchema),
      ((ops.any fun a => a.op.isSome) != (ops.all fun a => a.op.isSome)) = false →
      (∀ a ∈ ops, a.op = some .countAll ∨
        ∃ ti ciIdx ci, resolveCol tbls a.col = .ok (ti, ciIdx, ci)) →
      (∃ a ∈ ops, (a.op = some .avg ∨ a.op = some .sum) ∧
        ∃ ti ciIdx ci, resolveCol tbls a.col = .ok (ti, ciIdx, ci) ∧
          ¬(ci.ty = .int ∨ ci.ty = .bool ∨ ci.ty = .float)) →
      ∃ c o, mk_tbls (some ops) tbls = .error (.invalidAgg c o)) ∧
    (∀ (tbls : List (List Col)) (tuples : List (List Row)) (tblIdx : Nat) (col : Col),
      (∀ t ∈ tuples, t.length = tbls.length) → tblIdx < tbls.length →
      (col.op = some .sum →
        aggCell tbls.length tuples.length tuples.flatten tblIdx col =
          if (aggVals tuples tblIdx col).length = 0 then .null
          else .f64 (aggVals tuples tblIdx col).sum) ∧
      (col.op = some .avg →
        aggCell tbls.length tuples.length tuples.flatten tblIdx col =
          if (aggVals tuples tblIdx col).length = 0 then .null
          else .f64 ((aggVals tuples tblIdx col).sum /
            ((aggVals tuples tblIdx col).length : ℚ)))) := by
  refine ⟨?_, ?_, ?_⟩
  · intro ops tbls ret h a ha hop ti ciIdx ci hres
    unfold mk_tbls at h
    have h2 : (if ((ops.any fun a => a.op.isSome) != ops.all fun a => a.op.isSome) = true
        then Except.error Error.mixedSelect
        else mk_tbls_go tbls ops (List.replicate tbls.length [])) = Except.ok ret := h
    split at h2
    · exact Except.noConfusion h2
    · exact mk_tbls_go_ok_types tbls ops _ ret h2 a ha hop ti ciIdx ci hres
  · intro ops tbls hmix hres hbad
    show ∃ c o,
      (if ((ops.any fun a => a.op.isSome) != ops.all fun a => a.op.isSome) = true
        then Except.error Error.mixedSelect
        else mk_tbls_go tbls ops (List.replicate tbls.length [])) =
        Except.error (.invalidAgg c o)
    rw [if_neg (by rw [hmix]; exact Bool.false_ne_true)]
    exact mk_tbls_go_bad_errors tbls ops _ hres hbad
  · intro tbls tuples tblIdx col hu hidx
    constructor
    · intro hop
      unfold aggCell
      rw [hop, sumLoop_flatten tbls.length tuples tblIdx col hu hidx]
    · intro hop
      unfold aggCell
      rw [hop, sumLoop_flatten tbls.length tuples tblIdx col hu hidx]

/-- Output column descriptor for `sum(b)`, used in witnesses. -/
def colSum : Col := ⟨some .sum, 0, some ⟨"b", .int, false⟩⟩

/-- Witness for C7: sum over the joined set {(2), (3)} of one Int column is
the rational 5, and `sum(c)` on a Char column fails with InvalidAgg. -/
theorem C7_sum_avg_semantics_witness :
    (0 : Nat) < 1 ∧
    aggCell 1 2 [[rowIntA 2], [rowIntA 3]].flatten 0 colSum = .f64 5 ∧
    (∃ c o, mk_tbls (some [⟨⟨none, "c"⟩, some .sum⟩]) [⟨"t", [⟨"c", .char, false⟩]⟩] =
      .error (.invalidAgg c o)) := by
  have hu : ∀ t ∈ [[rowIntA 2], [rowIntA 3]],
      t.length = ([[colSum]] : List (List Col)).length := by
    intro t ht
    rcases List.mem_cons.mp ht with h | h
    · rw [h]; rfl
    · rcases List.mem_cons.mp h with h2 | h2
      · rw [h2]; rfl
      · exact absurd h2 (List.not_mem_nil t)
  refine ⟨by decide, ?_, ?_⟩
  · have h := (C7_sum_avg_semantics.2.2 [[colSum]] [[rowIntA 2], [rowIntA 3]] 0 colSum
      hu (by decide)).1 rfl
    refine h.trans ?_
    simp only [aggVals, colSum, rowIntA, junkRow, List.filterMap_cons, List.filterMap_nil,
      List.getD_cons_zero, cellAsF64, Val.asInt, List.length_cons, List.length_nil,
      List.sum_cons, List.sum_nil]
    norm_num
  · refine C7_sum_avg_semantics.2.1 [⟨⟨none, "c"⟩, some .sum⟩] [⟨"t", [⟨"c", .char, false⟩]⟩]
      rfl ?_ ?_
    · intro a ha
      rw [List.mem_singleton.mp ha]
      exact Or.inr ⟨0, 0, ⟨"c", .char, false⟩, rfl⟩
    · exact ⟨⟨⟨none, "c"⟩, some .sum⟩, List.mem_singleton.mpr rfl, Or.inr rfl,
        0, 0, ⟨"c", .char, false⟩, rfl, by decide⟩

theorem setGetD_eq {α : Type} (d : α) :
    ∀ (l : List α) (i : Nat) (x : α), i < l.length → (l.set i x).getD i d = x := by
  intro l
  induction l with
  | nil =>
    intro i x hi
    exact absurd hi (by simp)
  | cons a l ih =>
    intro i x hi
    cases i with
    | zero => rfl
    | succ i =>
      rw [List.set_cons_succ, List.getD_cons_succ]
      exact ih i x (by simpa using hi)

theorem setGetD_ne {α : Type} (d : α) :
    ∀ (l : List α) (i j : Nat) (x : α), i ≠ j → (l.set i x).getD j d = l.getD j d := by
  intro l
  induction l with
  | nil => intro i j x _; rfl
  | cons a l ih =>
    intro i j x hne
    cases i with
    | zero =>
      cases j with
      | zero => exact absurd rfl hne
      | succ j => rw [List.set_cons_zero, List.getD_cons_succ, List.getD_cons_succ]
    | succ i =>
      cases j with
      | zero => rw [List.set_cons_succ, List.getD_cons_zero, List.getD_cons_zero]
      | succ j =>
        rw [List.set_cons_succ, List.getD_cons_succ, List.getD_cons_succ]
        exact ih i j x fun h => hne (congrArg Nat.succ h)

theorem replicate_getD_nil {α : Type} :
    ∀ (n t : Nat), (List.replicate n ([] : List α)).getD t [] = [] := by
  intro n
  induction n with
  | zero => intro t; rfl
  | succ n ih =>
    intro t
    cases t with
    | zero => rfl
    | succ t =>
      rw [List.replicate_succ, List.getD_cons_succ]
      exact ih t

theorem findTable_lt : ∀ (tbls : List TableSchema) (n : String) (i : Nat) (tb : TableSchema),
    findTable tbls n = some (i, tb) → i < tbls.length := by
  intro tbls
  induction tbls with
  | nil => intro n i tb h; exact Option.noConfusion h
  | cons t ts ih =>
    intro n i tb h
    unfold findTable at h
    by_cases ht : (t.name == n) = true
    · rw [if_pos ht] at h
      have h1 : 0 = i := congrArg Prod.fst (Option.some.inj h)
      rw [← h1]
      simp
    · rw [if_neg ht] at h
      cases hf : findTable ts n with
      | none => rw [hf] at h; exact Option.noConfusion h
      | some p =>
        rw [hf] at h
        have h1 : p.1 + 1 = i := congrArg Prod.fst (Option.some.inj h)
        have h2 := ih n p.1 p.2 (by rw [hf])
        rw [List.length_cons]
        omega

theorem colMatches_lt : ∀ (tbls : List TableSchema) (n : String),
    ∀ m ∈ colMatches tbls n, m.1 < tbls.length := by
  intro tbls
  induction tbls with
  | nil => intro n m hm; exact absurd hm (List.not_mem_nil m)
  | cons t ts ih =>
    intro n m hm
    unfold colMatches at hm
    rcases List.mem_append.mp hm with h | h
    · obtain ⟨p, _, hpe⟩ := List.mem_map.mp h
      rw [← hpe]
      simp
    · obtain ⟨p, hp, hpe⟩ := List.mem_map.mp h
      rw [← hpe]
      have := ih n p hp
      rw [List.length_cons]
      simp only []
      omega

theorem resolveCol_lt (tbls : List TableSchema) (cr : ColRef) (ti ciIdx : Nat) (ci : ColInfo)
    (h : resolveCol tbls cr = .ok (ti, ciIdx, ci)) : ti < tbls.length := by
  unfold resolveCol at h
  cases hcr : cr.table with
  | some tn =>
    rw [hcr] at h
    have h2 : (match findTable tbls tn with
        | some (ti, tb) =>
          match get_ci tb.cols cr.col with
          | Except.ok (ci, c) => Except.ok (ti, ci, c)
          | Except.error e => Except.error e
        | none => Except.error (Error.noSuchTable tn)) = Except.ok (ti, ciIdx, ci) := h
    cases hf : findTable tbls tn with
    | none =>
      rw [hf] at h2
      exact Except.noConfusion h2
    | some p =>
      obtain ⟨i, tb⟩ := p
      rw [hf] at h2
      have h3 : (match get_ci tb.cols cr.col with
          | Except.ok (ci, c) => Except.ok (i, ci, c)
          | Except.error e => Except.error e) = Except.ok (ti, ciIdx, ci) := h2
      cases hg : get_ci tb.cols cr.col with
      | error e => rw [hg] at h3; exact Except.noConfusion h3
      | ok pr =>
        obtain ⟨cii, c⟩ := pr
        rw [hg] at h3
        have h1 : i = ti := congrArg (fun p => p.1) (Except.ok.inj h3)
        rw [← h1]
        exact findTable_lt tbls tn i tb hf
  | none =>
    rw [hcr] at h
    have h2 : (match colMatches tbls cr.col with
        | [m] => Except.ok m
        | [] => Except.error (Error.noSuchCol cr.col)
        | _ => Except.error (Error.ambiguousCol cr.col)) = Except.ok (ti, ciIdx, ci) := h
    cases hm : colMatches tbls cr.col with
    | nil => rw [hm] at h2; exact Except.noConfusion h2
    | cons m rest =>
      cases rest with
      | nil =>
        rw [hm] at h2
        have h1 : m.1 = ti := congrArg (fun p => p.1) (Except.ok.inj h2)
        rw [← h1]
        exact colMatches_lt tbls cr.col m (by rw [hm]; exact List.mem_singleton.mpr rfl)
      | cons m2 rest2 =>
        rw [hm] at h2
        exact Except.noConfusion h2

theorem bucket_step (tbls : List TableSchema)
    (ret : List (List Col)) (hlen : ret.length = tbls.length)
    (ti0 : Nat) (hti : ti0 < tbls.length) (c0 : Col)
    (rest : List Agg) (a0 : Agg) (hdest : aggDest tbls a0 = .ok (ti0, c0))
    (t : Nat) (_ : t < tbls.length) :
    (ret.set ti0 (ret.getD ti0 [] ++ [c0])).getD t [] ++ groupSpec rest tbls t =
      ret.getD t [] ++ groupSpec (a0 :: rest) tbls t := by
  conv_rhs => unfold groupSpec
  rw [List.filterMap_cons, hdest]
  by_cases ht0 : ti0 = t
  · subst ht0
    rw [setGetD_eq _ ret ti0 _ (by rw [hlen]; exact hti)]
    simp [groupSpec, List.append_assoc]
  · rw [setGetD_ne _ ret ti0 t _ ht0]
    simp [groupSpec, beq_iff_eq, ht0]

theorem mk_tbls_go_bucket (tbls : List TableSchema) (h0 : 0 < tbls.length) :
    ∀ (ops : List Agg) (ret final : List (List Col)),
      ret.length = tbls.length →
      mk_tbls_go tbls ops ret = .ok final →
      final.length = tbls.length ∧
      ∀ t, t < tbls.length → final.getD t [] = ret.getD t [] ++ groupSpec ops tbls t := by
  intro ops
  induction ops with
  | nil =>
    intro ret final hlen h
    have he : ret = final := Except.ok.inj h
    subst he
    exact ⟨hlen, fun t _ => by simp [groupSpec]⟩
  | cons a0 rest ih =>
    intro ret final hlen h
    unfold mk_tbls_go at h
    by_cases hca : (a0.op == some AggOp.countAll) = true
    · rw [if_pos hca] at h
      obtain ⟨hfl, hb⟩ := ih _ final (by rw [List.length_set]; exact hlen) h
      refine ⟨hfl, fun t ht => ?_⟩
      rw [hb t ht]
      exact bucket_step tbls ret hlen 0 h0 ⟨a0.op, 0, none⟩ rest a0
        (by unfold aggDest; rw [if_pos hca]) t ht
    · rw [if_neg hca] at h
      cases hres0 : resolveCol tbls a0.col with
      | error e =>
        rw [hres0] at h
        exact Except.noConfusion h
      | ok trip =>
        obtain ⟨ti0, ciIdx0, ci0⟩ := trip
        rw [hres0] at h
        have hti : ti0 < tbls.length := resolveCol_lt tbls a0.col ti0 ciIdx0 ci0 hres0
        have hdest : aggDest tbls a0 = .ok (ti0, ⟨a0.op, ciIdx0, some ci0⟩) := by
          unfold aggDest
          rw [if_neg hca, hres0]
        cases hop0 : a0.op with
        | none =>
          rw [hop0] at h
          have h2 : mk_tbls_go tbls rest
              (ret.set ti0 (ret.getD ti0 [] ++ [⟨none, ciIdx0, some ci0⟩])) = .ok final := h
          obtain ⟨hfl, hb⟩ := ih _ final (by rw [List.length_set]; exact hlen) h2
          refine ⟨hfl, fun t ht => ?_⟩
          rw [hb t ht]
          rw [hop0] at hdest
          exact bucket_step tbls ret hlen ti0 hti ⟨none, ciIdx0, some ci0⟩ rest a0 hdest t ht
        | some op0 =>
          rw [hop0] at h
          have h2 : (if ((op0 == AggOp.avg || op0 == AggOp.sum) && ci0.ty != BareTy.int &&
              ci0.ty != BareTy.float && ci0.ty != BareTy.bool) = true then
              Except.error (Error.invalidAgg ci0.ty op0)
            else mk_tbls_go tbls rest
              (ret.set ti0 (ret.getD ti0 [] ++ [⟨some op0, ciIdx0, some ci0⟩]))) =
              .ok final := h
          by_cases hg : ((op0 == AggOp.avg || op0 == AggOp.sum) && ci0.ty != BareTy.int &&
              ci0.ty != BareTy.float && ci0.ty != BareTy.bool) = true
          · rw [if_pos hg] at h2
            exact Except.noConfusion h2
          · rw [if_neg hg] at h2
            obtain ⟨hfl, hb⟩ := ih _ final (by rw [List.length_set]; exact hlen) h2
            refine ⟨hfl, fun t ht => ?_⟩
            rw [hb t ht]
            rw [hop0] at hdest
            exact bucket_step tbls ret hlen ti0 hti ⟨some op0, ciIdx0, some ci0⟩ rest a0 hdest t ht

/-- Two one-column tables `t(a int)` and `u(x int)`, in textual order. -/
def ctxTU : List TableSchema := [⟨"t", [⟨"a", .int, false⟩]⟩, ⟨"u", [⟨"x", .int, false⟩]⟩]

/-- The select list `u.x, t.a` — reversed relative to table order. -/
def opsXA : List Agg := [⟨⟨some "u", "x"⟩, none⟩, ⟨⟨some "t", "a"⟩, none⟩]

/-- Counterexample to claim C3: for `select u.x, t.a from t, u` with the
joined tuple (t-row a = 1, u-row x = 2), the materialized row is
`[1, 2]` — `mk_tbls` buckets the items by table and `SelectResult::new`
flattens table-major — not the select-list order `[2, 1]` the claim states. -/
theorem C3_counterexample_select_order :
    (mk_tbls (some opsXA) ctxTU).map
        (fun tbls => (SelectResult.new tbls [rowIntA 1, rowIntA 2]).data) =
      .ok [.int 1, .int 2] ∧
    [LitExt.int 1, LitExt.int 2] ≠ [LitExt.int 2, LitExt.int 1] := by
  exact ⟨rfl, by decide⟩

/-- Claim C3, amended: the materialized columns are grouped by table — bucket
`t` of a compiled explicit select list holds exactly the select items
resolving to table `t` (with every `count(*)` in bucket 0), in select-list
order — and the output is these buckets flattened in table order; the order
equals the written select-list order only when all items resolve to one
table.  (For `select *`, the expansion is table order × declaration order by
construction of `mk_tbls`.) -/
theorem C3_amended_grouped_order (ops : List Agg) (tbls : List TableSchema)
    (ret : List (List Col)) (h0 : 0 < tbls.length)
    (h : mk_tbls (some ops) tbls = .ok ret) :
    ret.length = tbls.length ∧
    ∀ t, t < tbls.length → ret.getD t [] = groupSpec ops tbls t := by
  unfold mk_tbls at h
  have h2 : (if ((ops.any fun a => a.op.isSome) != ops.all fun a => a.op.isSome) = true
      then Except.error Error.mixedSelect
      else mk_tbls_go tbls ops (List.replicate tbls.length [])) = Except.ok ret := h
  split at h2
  · exact Except.noConfusion h2
  · obtain ⟨hl, hb⟩ := mk_tbls_go_bucket tbls h0 ops _ ret (by simp) h2
    refine ⟨hl, fun t ht => ?_⟩
    rw [hb t ht, replicate_getD_nil]
    exact List.nil_append _

/-- Witness for the amended C3: on `select u.x, t.a from t, u` the compiled
buckets are `[[t.a], [u.x]]` — bucket 0 holds the items of table `t`, bucket
1 those of table `u` — matching `groupSpec`. -/
theorem C3_amended_grouped_order_witness :
    (0 : Nat) < 2 ∧
    mk_tbls (some opsXA) ctxTU =
      .ok [[⟨none, 0, some ⟨"a", .int, false⟩⟩], [⟨none, 0, some ⟨"x", .int, false⟩⟩]] ∧
    (∀ t, t < ctxTU.length →
      ([[⟨none, 0, some ⟨"a", .int, false⟩⟩],
        [⟨none, 0, some ⟨"x", .int, false⟩⟩]] : List (List Col)).getD t [] =
        groupSpec opsXA ctxTU t) :=
  ⟨by decide, rfl,
    (C3_amended_grouped_order opsXA ctxTU _ (by decide) rfl).2⟩
